import Mathlib

/-!
# grkvsessions: a gorilla/sessions store backed by the grkv key-value store

Shallow embedding of `sessions.go` (package `grkvsessions`) and proofs about
`New`, `Get`, `Save`, `load`, `erase` and `save`.

Conventions of the embedding

* Go `error` values are terms of `GoError`, tagged by where they were created;
  a nil error is `none`.
* A Go run-time panic (nil pointer dereference, index out of range) is the
  `Run.panic` outcome; a normal return is `Run.ret`.
* `*sessions.Options` pointers are addresses into the heap `Mem`; the store
  handle `*grkv.Store` is a record of operations `KV σ` over an explicit store
  state `σ`; the response writer is the list of cookies for which
  `http.SetCookie` added a Set-Cookie header.
* The libraries the package calls (securecookie, gorilla/sessions, net/http,
  encoding/base32, strings, grkv) are not part of the package; the functions of
  them that the package calls are embedded from their documented behaviour, and
  the store and the codecs are parameters.
-/

set_option autoImplicit false

namespace Grkvsessions

/-! ## encoding/base32 and strings -/

/-- A Go `byte`. -/
abbrev Byte := Fin 256

/-- The alphabet of `base32.StdEncoding` (RFC 4648 section 6). -/
def encodeStd : List Char := "ABCDEFGHIJKLMNOPQRSTUVWXYZ234567".toList

/-- The padding character of `base32.StdEncoding`. -/
def StdPadding : Char := '='

/-- The character of the 5-bit value `q` in the standard alphabet. -/
def encodeChar (q : Nat) : Char := encodeStd.getD q 'A'

/-- The `i`-th (0..7) 5-bit group of a 40-bit quantum `n`, most significant
group first. -/
def quintet (n i : Nat) : Nat := (n / 2 ^ (35 - 5 * i)) % 32

/-- The 40-bit quantum made of up to five bytes, missing bytes being zero
bits. -/
def quantum (b0 b1 b2 b3 b4 : Nat) : Nat :=
  b0 * 2 ^ 32 + b1 * 2 ^ 24 + b2 * 2 ^ 16 + b3 * 2 ^ 8 + b4

/-- The first `k` characters of the encoding of the quantum `n`. -/
def quantumChars (n k : Nat) : List Char :=
  (List.range k).map (fun i => encodeChar (quintet n i))

/-- The function `base32.StdEncoding.Encode` of the Go standard library, as RFC
4648 section 6 defines it: every 5 input bytes give 8 characters; a final group
of 1, 2, 3 or 4 bytes gives 2, 4, 5 or 7 characters followed by padding up to
8. -/
def encodeBytes : List Byte → List Char
  | [] => []
  | [a] => quantumChars (quantum a 0 0 0 0) 2 ++ List.replicate 6 StdPadding
  | [a, b] => quantumChars (quantum a b 0 0 0) 4 ++ List.replicate 4 StdPadding
  | [a, b, c] => quantumChars (quantum a b c 0 0) 5 ++ List.replicate 3 StdPadding
  | [a, b, c, d] => quantumChars (quantum a b c d 0) 7 ++ List.replicate 1 StdPadding
  | a :: b :: c :: d :: e :: rest => quantumChars (quantum a b c d e) 8 ++ encodeBytes rest

/-- The function `base32.StdEncoding.EncodeToString`. -/
def EncodeToString (src : List Byte) : String := String.mk (encodeBytes src)

/-- The function `strings.TrimRight(s, cutset)`: `s` without its trailing
characters that occur in `cutset`. -/
def TrimRight (s cutset : String) : String :=
  String.mk (s.toList.rdropWhile (fun c => cutset.toList.contains c))

/-- The characters of `encodeBytes` before the padding (used to state what
`TrimRight` leaves). -/
def symbols : List Byte → List Char
  | [] => []
  | [a] => quantumChars (quantum a 0 0 0 0) 2
  | [a, b] => quantumChars (quantum a b 0 0 0) 4
  | [a, b, c] => quantumChars (quantum a b c 0 0) 5
  | [a, b, c, d] => quantumChars (quantum a b c d 0) 7
  | a :: b :: c :: d :: e :: rest => quantumChars (quantum a b c d e) 8 ++ symbols rest

/-- The number of padding characters `encodeBytes` appends. -/
def padCount : List Byte → Nat
  | [] => 0
  | [_] => 6
  | [_, _] => 4
  | [_, _, _] => 3
  | [_, _, _, _] => 1
  | _ :: _ :: _ :: _ :: _ :: rest => padCount rest

/-- Membership in the base32 alphabet: `A`..`Z` or `2`..`7`. -/
def isStdSymbol (c : Char) : Bool :=
  ('A' ≤ c && c ≤ 'Z') || ('2' ≤ c && c ≤ '7')

/-! ## Errors and outcomes -/

/-- Go `error` values, by origin. -/
inductive GoError where
  /-- an error returned by the grkv store -/
  | kv (msg : String)
  /-- an error returned by a `securecookie.Codec` -/
  | codec (msg : String)
  /-- the error `securecookie.errNoCodecs` -/
  | errNoCodecs
  /-- a `securecookie.MultiError` -/
  | multi (errs : List GoError)
  /-- the value of `errors.New(msg)` evaluated in this package -/
  | errorsNew (msg : String)
  /-- the value of a `fmt.Errorf` evaluated in gorilla/sessions -/
  | errorf (msg : String)

/-- Outcome of running a Go function: it returns, or the goroutine panics. -/
inductive Run (α : Type) where
  | ret (a : α)
  | panic (msg : String)

/-- Message of the run-time panic on a nil pointer dereference. -/
def nilDeref : String := "invalid memory address or nil pointer dereference"

/-- Message of the run-time panic on an index past the end of a slice. -/
def indexOutOfRange : String := "index out of range"

/-! ## securecookie -/

/-- The session payload `map[interface{}]interface{}`, as an association
list. -/
abbrev Values := List (String × String)

/-- The two dynamic types this package passes as `value interface{}` to a
codec: the session identifier (a string) and the session values. -/
inductive Payload where
  | str (s : String)
  | vals (v : Values)

/-- The interface `securecookie.Codec`. `Decode(name, value, dst)` is split by
the type of `dst`, the two this package uses: `*string` and the values map; a
failing `Decode` leaves `dst` as it was. -/
structure Codec where
  Encode : String → Payload → Except GoError String
  DecodeString : String → String → Except GoError String
  DecodeValues : String → String → Except GoError Values

/-- The loop of `securecookie.EncodeMulti`: the first codec that encodes wins,
the errors of the others are collected in a `MultiError`. -/
def encodeLoop (name : String) (value : Payload) :
    List Codec → List GoError → Except GoError String
  | [], errors => .error (.multi errors)
  | codec :: rest, errors =>
    match codec.Encode name value with
    | .ok encoded => .ok encoded
    | .error err => encodeLoop name value rest (errors ++ [err])

/-- The function `securecookie.EncodeMulti(name, value, codecs...)`. -/
def EncodeMulti (name : String) (value : Payload) (codecs : List Codec) :
    Except GoError String :=
  if codecs.length = 0 then .error .errNoCodecs else encodeLoop name value codecs []

/-- The loop of `securecookie.DecodeMulti`: the first codec that decodes wins. -/
def decodeLoop {α : Type} (dec : Codec → String → String → Except GoError α)
    (name value : String) : List Codec → List GoError → Except GoError α
  | [], errors => .error (.multi errors)
  | codec :: rest, errors =>
    match dec codec name value with
    | .ok v => .ok v
    | .error err => decodeLoop dec name value rest (errors ++ [err])

/-- The function `securecookie.DecodeMulti(name, value, dst, codecs...)`; `dec`
selects the method for the type of `dst`, and `.ok v` is a nil error with `v`
stored in `dst`. -/
def DecodeMulti {α : Type} (dec : Codec → String → String → Except GoError α)
    (name value : String) (codecs : List Codec) : Except GoError α :=
  if codecs.length = 0 then .error .errNoCodecs else decodeLoop dec name value codecs []

/-! ## gorilla/sessions and net/http -/

/-- The struct `sessions.Options`. `MaxAge` is a Go `int`. -/
structure Options where
  Path : String
  Domain : String
  MaxAge : Int
  Secure : Bool
  HttpOnly : Bool
  SameSite : Int

/-- The heap of `sessions.Options` objects; an address is an index, and a
pointer `*sessions.Options` is `some address` or `none` for nil. -/
structure Mem where
  options : List Options

/-- Read through a pointer: `none` when the pointer is nil or dangling. -/
def Mem.deref (m : Mem) (p : Option Nat) : Option Options :=
  p.bind (fun a => m.options[a]?)

/-- Allocate a new `Options` object holding `o`; returns its address. -/
def Mem.alloc (m : Mem) (o : Options) : Mem × Nat :=
  (⟨m.options ++ [o]⟩, m.options.length)

/-- Overwrite the object at address `a` (an assignment through a pointer, such
as `testSessionStore.Options.Path = "/foo"`). -/
def Mem.store (m : Mem) (a : Nat) (o : Options) : Mem :=
  ⟨m.options.set a o⟩

/-- The struct `sessions.Session`, without its `store` back-pointer. -/
structure Session where
  ID : String
  Values : Values
  Options : Option Nat
  IsNew : Bool
  name : String

/-- The function `sessions.NewSession(store, name)`. -/
def NewSession (name : String) : Session :=
  { ID := "", Values := [], Options := none, IsNew := false, name := name }

/-- The struct `http.Cookie`, without `Expires` (which `sessions.NewCookie`
derives from the wall clock). -/
structure Cookie where
  Name : String
  Value : String
  Path : String
  Domain : String
  MaxAge : Int
  Secure : Bool
  HttpOnly : Bool
  SameSite : Int

/-- The function `sessions.NewCookie(name, value, options)`. -/
def NewCookie (name value : String) (options : Options) : Cookie :=
  { Name := name, Value := value, Path := options.Path, Domain := options.Domain,
    MaxAge := options.MaxAge, Secure := options.Secure, HttpOnly := options.HttpOnly,
    SameSite := options.SameSite }

/-- The token characters of HTTP (the table `isTokenTable` that net/http and
gorilla/sessions share): the characters allowed in a cookie name. -/
def isToken (c : Char) : Bool :=
  let n := c.toNat
  n = 33 || (35 ≤ n && n ≤ 39) || n = 42 || n = 43 || n = 45 || n = 46 ||
    (48 ≤ n && n ≤ 57) || (65 ≤ n && n ≤ 90) || (94 ≤ n && n ≤ 122) || n = 124 || n = 126

/-- The function `isCookieNameValid` of net/http and of gorilla/sessions: the
name is not empty and all its characters are token characters. -/
def isCookieNameValid (raw : String) : Bool :=
  raw ≠ "" && raw.toList.all isToken

/-- The function `http.SetCookie(w, cookie)`: it adds the Set-Cookie header
`cookie.String()` unless that string is empty, and `(*Cookie).String` is empty
exactly when the name of the cookie is not a valid cookie name. `w` is the list
of the cookies attached so far. -/
def SetCookie (w : List Cookie) (cookie : Cookie) : List Cookie :=
  if isCookieNameValid cookie.Name then w ++ [cookie] else w

/-- An incoming `*http.Request`, as far as this package reads it:
`Cookie name` is the value of the cookie that `r.Cookie(name)` returns, `none`
when it returns `http.ErrNoCookie`. -/
structure Request where
  Cookie : String → Option String

/-! ## grkv -/

/-- The message `kvpb.KeyValue`; `ExpiresAt` is a `uint64`. -/
structure KeyValue where
  Key : String
  Value : String
  ExpiresAt : Nat

/-- The message `kvpb.SetRequest`. -/
structure SetRequest where
  Data : List KeyValue

/-- The message `kvpb.DeleteRequest`. -/
structure DeleteRequest where
  Keys : List String

/-- The message `kvpb.GetResponse`. -/
structure GetResponse where
  Data : List KeyValue
  KeysNotFound : List String

/-- The message `kvpb.SuccessResponse`. -/
structure SuccessResponse where
  Success : Bool

/-- The methods of `*grkv.Store` this package calls, over a store state `σ`.
A response pointer may be nil (`none`); the error may be nil (`none`). -/
structure KV (σ : Type) where
  GetWithStringKeys : σ → List String → Option GetResponse × Option GoError
  Set : σ → SetRequest → σ × Option SuccessResponse × Option GoError
  Delete : σ → DeleteRequest → σ × Option SuccessResponse × Option GoError

/-- A mutating request issued to the store. -/
inductive KVCall where
  | set (r : SetRequest)
  | delete (r : DeleteRequest)

/-- The conversion `uint64(i)` of a Go `int`. -/
def uint64 (i : Int) : Nat := (i % 2 ^ 64).toNat

/-! ## package grkvsessions -/

/-- The constant `sessionKeyPrefix`. -/
def sessionKeyPrefix : String := "session::"

/-- The struct `SessionStore`; `Options` is a pointer into `Mem`. -/
structure SessionStore (σ : Type) where
  Codecs : List Codec
  Options : Option Nat
  KV : KV σ

/-- What the functions of the package read and change: the heap of `Options`
objects, the state of the store, the record `calls` of the Set and Delete
requests issued to the store so far, and `w`, the cookies attached to the
response so far: those for which `http.SetCookie` added a Set-Cookie header to
the response writer. -/
structure World (σ : Type) where
  mem : Mem
  kv : σ
  calls : List KVCall
  w : List Cookie

/-- The function `NewSessionStore(kv, keyPairs...)`: the codecs are those
`securecookie.CodecsFromPairs(keyPairs...)` builds, and the default options are
a newly allocated object with `Path: "/"` and `MaxAge: 86400 * 30`. -/
def NewSessionStore {σ : Type} (mem : Mem) (kv : KV σ) (codecs : List Codec) :
    Mem × SessionStore σ :=
  let (mem1, a) := mem.alloc
    { Path := "/", Domain := "", MaxAge := 86400 * 30, Secure := false, HttpOnly := false,
      SameSite := 0 }
  (mem1, { Codecs := codecs, Options := some a, KV := kv })

/-- The method `(*SessionStore).load`: returns the session (updated through
the pointer) and the error. -/
def load {σ : Type} (s : SessionStore σ) (kv : σ) (session : Session) :
    Run (Session × Option GoError) :=
  match s.KV.GetWithStringKeys kv [sessionKeyPrefix ++ session.ID] with
  | (_, some err) => .ret (session, some err)
  | (none, none) => .panic nilDeref
  | (some resp, none) =>
    if resp.KeysNotFound.length ≠ 0 then .ret (session, none)
    else
      match resp.Data with
      | [] => .panic indexOutOfRange
      | d :: _ =>
        match DecodeMulti Codec.DecodeValues session.name d.Value s.Codecs with
        | .ok v => .ret ({ session with Values := v }, none)
        | .error err => .ret (session, some err)

/-- The method `(*SessionStore).New`: returns the heap after the allocation of
the session's options, the session and the error. -/
def New {σ : Type} (s : SessionStore σ) (mem : Mem) (kv : σ) (r : Request) (name : String) :
    Run (Mem × Session × Option GoError) :=
  let session := NewSession name
  match mem.deref s.Options with
  | none => .panic nilDeref
  | some opts =>
    let (mem1, a) := mem.alloc opts
    let session := { session with Options := some a }
    let session := { session with IsNew := true }
    match r.Cookie name with
    | none => .ret (mem1, session, none)
    | some cookValue =>
      match DecodeMulti Codec.DecodeString name cookValue s.Codecs with
      | .error _ => .ret (mem1, session, none)
      | .ok id =>
        let session := { session with ID := id }
        match load s kv session with
        | .panic msg => .panic msg
        | .ret (session, some _) => .ret (mem1, session, none)
        | .ret (session, none) => .ret (mem1, { session with IsNew := false }, none)

/-- The method `(*SessionStore).erase`. -/
def erase {σ : Type} (s : SessionStore σ) (wd : World σ) (session : Session) :
    Run (World σ × Option GoError) :=
  let dr : DeleteRequest := { Keys := [sessionKeyPrefix ++ session.ID] }
  match s.KV.Delete wd.kv dr with
  | (kv1, success, err) =>
    let wd1 := { wd with kv := kv1, calls := wd.calls ++ [KVCall.delete dr] }
    match success with
    | none => .panic nilDeref
    | some success =>
      if success.Success then .ret (wd1, err)
      else .ret (wd1, some (.errorsNew "Error deleting"))

/-- The method `(*SessionStore).save`. -/
def save {σ : Type} (s : SessionStore σ) (wd : World σ) (session : Session) :
    Run (World σ × Option GoError) :=
  match EncodeMulti session.name (.vals session.Values) s.Codecs with
  | .error err => .ret (wd, some err)
  | .ok encoded =>
    match wd.mem.deref s.Options with
    | none => .panic nilDeref
    | some sOptions =>
      let data : List KeyValue :=
        [] ++ [{ Key := sessionKeyPrefix ++ session.ID, Value := encoded,
                 ExpiresAt := uint64 sOptions.MaxAge }]
      let sr : SetRequest := { Data := data }
      match s.KV.Set wd.kv sr with
      | (kv1, _, err) => .ret ({ wd with kv := kv1, calls := wd.calls ++ [KVCall.set sr] }, err)

/-- The method `(*SessionStore).Save`. `randomKey` is what
`securecookie.GenerateRandomKey(32)` returns when it is called. Returns the
world after the call, the session (updated through the pointer) and the
error. -/
def Save {σ : Type} (s : SessionStore σ) (wd : World σ) (randomKey : List Byte)
    (session : Session) : Run (World σ × Session × Option GoError) :=
  match wd.mem.deref session.Options with
  | none => .panic nilDeref
  | some sessionOptions =>
    if sessionOptions.MaxAge ≤ 0 then
      match erase s wd session with
      | .panic msg => .panic msg
      | .ret (wd1, some err) => .ret (wd1, session, some err)
      | .ret (wd1, none) =>
        .ret ({ wd1 with w := SetCookie wd1.w (NewCookie session.name "" sessionOptions) },
          session, none)
    else
      let session :=
        if session.ID = "" then
          { session with ID := TrimRight (EncodeToString randomKey) "=" }
        else session
      match save s wd session with
      | .panic msg => .panic msg
      | .ret (wd1, some err) => .ret (wd1, session, some err)
      | .ret (wd1, none) =>
        match EncodeMulti session.name (.str session.ID) s.Codecs with
        | .error err => .ret (wd1, session, some err)
        | .ok encoded =>
          .ret ({ wd1 with w := SetCookie wd1.w (NewCookie session.name encoded sessionOptions) },
            session, none)

/-! ### The registry of gorilla/sessions -/

/-- The struct `sessionInfo` of gorilla/sessions. -/
structure sessionInfo where
  s : Session
  e : Option GoError

/-- The sessions registered for one request (`Registry.sessions`). -/
abbrev Registry := List (String × sessionInfo)

/-- The method `(*Registry).Get(store, name)` of gorilla/sessions with this
package's store: an invalid name is an error; a registered session is
returned with the error registered with it; otherwise the store's `New` is
called and its result registered. -/
def Registry.Get {σ : Type} (reg : Registry) (store : SessionStore σ) (mem : Mem) (kv : σ)
    (r : Request) (name : String) : Run (Registry × Mem × Option Session × Option GoError) :=
  if !isCookieNameValid name then
    .ret (reg, mem, none, some (.errorf ("sessions: invalid character in cookie name: " ++ name)))
  else
    match reg.lookup name with
    | some info => .ret (reg, mem, some info.s, info.e)
    | none =>
      match New store mem kv r name with
      | .panic msg => .panic msg
      | .ret (mem1, session, err) =>
        let session := { session with name := name }
        .ret ((name, { s := session, e := err }) :: reg, mem1, some session, err)

/-- The method `(*SessionStore).Get`: `sessions.GetRegistry(r).Get(s, name)`,
`reg` being the registry of the request. -/
def Get {σ : Type} (s : SessionStore σ) (reg : Registry) (mem : Mem) (kv : σ) (r : Request)
    (name : String) : Run (Registry × Mem × Option Session × Option GoError) :=
  Registry.Get reg s mem kv r name

/-! ## Test doubles used to run the package on concrete inputs -/

/-- An in-memory store: a list of entries with distinct keys. Every call
succeeds. -/
def memKV : KV (List KeyValue) where
  GetWithStringKeys := fun st keys =>
    (some { Data := keys.filterMap (fun k => st.find? (fun e => e.Key == k)),
            KeysNotFound := keys.filter (fun k => !st.any (fun e => e.Key == k)) }, none)
  Set := fun st req =>
    (req.Data.foldl (fun acc e => e :: acc.filter (fun x => x.Key != e.Key)) st,
      some { Success := true }, none)
  Delete := fun st req =>
    (st.filter (fun e => !req.Keys.contains e.Key), some { Success := true }, none)

/-- A store that is down: every call fails with an error, nothing changes, and
the responses of Set and Delete carry `Success: false`. -/
def downKV : KV (List KeyValue) where
  GetWithStringKeys := fun _ _ => (none, some (.kv "store unavailable"))
  Set := fun st _ => (st, some { Success := false }, some (.kv "store unavailable"))
  Delete := fun st _ => (st, some { Success := false }, some (.kv "store unavailable"))

/-- A codec with a size ceiling and no cryptography: a string `x` is encoded as
`s` followed by `x` unless it is longer than `maxLength`; of the values, only
the empty map and the map with the single entry `k: v` can be encoded. -/
def plainCodec (maxLength : Nat) : Codec where
  Encode := fun _ value =>
    match value with
    | .str x =>
      if x.length > maxLength then .error (.codec "securecookie: the value is too long")
      else .ok ("s" ++ x)
    | .vals v =>
      if v = [] then .ok "v0"
      else if v = [("k", "v")] then .ok "v1"
      else .error (.codec "securecookie: the value is too long")
  DecodeString := fun _ value =>
    match value.toList with
    | 's' :: x => .ok (String.mk x)
    | _ => .error (.codec "securecookie: the value is not valid")
  DecodeValues := fun _ value =>
    if value = "v0" then .ok []
    else if value = "v1" then .ok [("k", "v")]
    else .error (.codec "securecookie: the value is not valid")

/-! ## Requests and worlds named in the statements -/

/-- The request `erase` sends for a session. -/
def eraseRequest (session : Session) : DeleteRequest :=
  { Keys := [sessionKeyPrefix ++ session.ID] }

/-- The request `save` sends for a session whose values encode to `encoded`,
when the `MaxAge` of the store's default options is `maxAge`. -/
def saveRequest (session : Session) (encoded : String) (maxAge : Int) : SetRequest :=
  { Data := [{ Key := sessionKeyPrefix ++ session.ID, Value := encoded,
               ExpiresAt := uint64 maxAge }] }

/-- The world after one more store call and no other change. -/
def World.afterCall {σ : Type} (wd : World σ) (kv1 : σ) (call : KVCall) : World σ :=
  { mem := wd.mem, kv := kv1, calls := wd.calls ++ [call], w := wd.w }

/-- The world after `http.SetCookie` was called with `c` and no other change. -/
def World.setCookie {σ : Type} (wd : World σ) (c : Cookie) : World σ :=
  { mem := wd.mem, kv := wd.kv, calls := wd.calls, w := SetCookie wd.w c }

/-- The session with the identifier `Save` gives it: `id` when it has none,
its own otherwise. -/
def Session.withID (session : Session) (id : String) : Session :=
  { session with ID := if session.ID = "" then id else session.ID }

/-! ## Fixtures -/

/-- The default options `NewSessionStore` allocates. -/
def defaultOptions : Options :=
  { Path := "/", Domain := "", MaxAge := 86400 * 30, Secure := false, HttpOnly := false,
    SameSite := 0 }

/-- The heap and the store `NewSessionStore` returns from an empty heap, with
the in-memory store and one codec with the ceiling 4096. -/
def testSessionStore : Mem × SessionStore (List KeyValue) :=
  NewSessionStore { options := [] } memKV [plainCodec 4096]

/-- A request carrying exactly one cookie, `name=value`. -/
def requestWithCookie (name value : String) : Request :=
  { Cookie := fun n => if n = name then some value else none }

/-- A request without cookies (`http.NewRequest("GET", url, nil)`). -/
def requestWithoutCookie : Request := { Cookie := fun _ => none }

/-- The world of the tests after `New`: the store's default options at address
0, the session's own options at address 1 with `MaxAge` set to `maxAge`, the
store holding `kv`, no call issued and no cookie set yet. -/
def testWorld (maxAge : Int) (kv : List KeyValue) : World (List KeyValue) :=
  { mem := { options := [defaultOptions, { defaultOptions with MaxAge := maxAge }] },
    kv := kv, calls := [], w := [] }

/-- The session "hello" of the tests, its options at address 1. -/
def testSession (id : String) (values : Values) : Session :=
  { ID := id, Values := values, Options := some 1, IsNew := true, name := "hello" }

/-- A value of `securecookie.GenerateRandomKey(32)`. -/
def testRandomKey : List Byte :=
  [0x3a, 0x91, 0x07, 0xee, 0x52, 0xc4, 0x18, 0xb9, 0x6d, 0x20, 0xf3, 0x84, 0x5b, 0xa7, 0x0c, 0xd1,
   0x49, 0xe6, 0x7f, 0x33, 0x98, 0x02, 0xbc, 0x65, 0xda, 0x11, 0x8e, 0x47, 0xf0, 0x2b, 0x76, 0xc9]

/-- The store of the tests with a codec whose ceiling is 3. -/
def smallCodecStore : SessionStore (List KeyValue) :=
  { Codecs := [plainCodec 3], Options := some 0, KV := memKV }

/-- The store of the tests over a backend that is down. -/
def downStore : SessionStore (List KeyValue) :=
  { Codecs := [plainCodec 4096], Options := some 0, KV := downKV }

/-! ## encoding/base32 and strings: lemmas -/

theorem encodeChar_inj : ∀ i j : Fin 32, encodeChar i.val = encodeChar j.val → i = j := by
  decide

theorem quintet_lt (n i : Nat) : quintet n i < 32 := Nat.mod_lt _ (by norm_num)

theorem encodeBytes_eq (l : List Byte) :
    encodeBytes l = symbols l ++ List.replicate (padCount l) StdPadding := by
  induction l using symbols.induct with
  | case1 => rfl
  | case2 a => simp [encodeBytes, symbols, padCount]
  | case3 a b => simp [encodeBytes, symbols, padCount]
  | case4 a b c => simp [encodeBytes, symbols, padCount]
  | case5 a b c d => simp [encodeBytes, symbols, padCount]
  | case6 a b c d e rest ih => simp [encodeBytes, symbols, padCount, ih]

theorem encodeChar_isStdSymbol : ∀ i : Fin 32, isStdSymbol (encodeChar i.val) = true := by
  decide

theorem quantumChars_isStdSymbol (n k : Nat) :
    ∀ c ∈ quantumChars n k, isStdSymbol c = true := by
  intro c hc
  simp only [quantumChars, List.mem_map] at hc
  obtain ⟨i, _, rfl⟩ := hc
  exact encodeChar_isStdSymbol ⟨quintet n i, quintet_lt n i⟩

theorem symbols_isStdSymbol (l : List Byte) : ∀ c ∈ symbols l, isStdSymbol c = true := by
  induction l using symbols.induct with
  | case1 => simp [symbols]
  | case2 a => exact quantumChars_isStdSymbol _ _
  | case3 a b => exact quantumChars_isStdSymbol _ _
  | case4 a b c => exact quantumChars_isStdSymbol _ _
  | case5 a b c d => exact quantumChars_isStdSymbol _ _
  | case6 a b c d e rest ih =>
    intro x hx
    simp only [symbols, List.mem_append] at hx
    rcases hx with hx | hx
    · exact quantumChars_isStdSymbol _ _ x hx
    · exact ih x hx

theorem symbols_length (l : List Byte) : (symbols l).length = (8 * l.length + 4) / 5 := by
  induction l using symbols.induct with
  | case1 => rfl
  | case2 a => simp [symbols, quantumChars]
  | case3 a b => simp [symbols, quantumChars]
  | case4 a b c => simp [symbols, quantumChars]
  | case5 a b c d => simp [symbols, quantumChars]
  | case6 a b c d e rest ih =>
    simp only [symbols, List.length_append, ih, quantumChars, List.length_map, List.length_range,
      List.length_cons]
    omega

theorem rdropWhile_append_replicate (p : Char → Bool) (l : List Char) (k : Nat) (c : Char)
    (hc : p c = true) (hl : ∀ x ∈ l, p x = false) :
    (l ++ List.replicate k c).rdropWhile p = l := by
  induction k with
  | zero =>
    simp only [List.replicate_zero, List.append_nil]
    rw [List.rdropWhile_eq_self_iff]
    intro hne
    have := hl _ (List.getLast_mem hne)
    simp [this]
  | succ k ih =>
    rw [List.replicate_succ', ← List.append_assoc, List.rdropWhile_concat_pos _ _ _ hc]
    exact ih

theorem trimRight_encode (l : List Byte) :
    TrimRight (EncodeToString l) "=" = String.mk (symbols l) := by
  unfold TrimRight EncodeToString
  rw [encodeBytes_eq]
  congr 1
  apply rdropWhile_append_replicate
  · decide
  · intro x hx
    have h := symbols_isStdSymbol l x hx
    by_cases hxe : x = '='
    · subst hxe
      exact absurd h (by decide)
    · simpa using hxe

theorem quantumChars_inj {n m k : Nat} (h : quantumChars n k = quantumChars m k) :
    ∀ i < k, quintet n i = quintet m i := by
  intro i hi
  have h1 := congrArg (fun l => l[i]?) h
  simp only [quantumChars, List.getElem?_map, List.getElem?_range hi, Option.map_some',
    Option.some.injEq] at h1
  have := encodeChar_inj ⟨quintet n i, quintet_lt n i⟩ ⟨quintet m i, quintet_lt m i⟩ h1
  simpa using this

theorem quantum_bytes (a b c d e : Byte) :
    a.val = quintet (quantum a b c d e) 0 * 8 + quintet (quantum a b c d e) 1 / 4 ∧
    b.val = quintet (quantum a b c d e) 1 % 4 * 64 + quintet (quantum a b c d e) 2 * 2
      + quintet (quantum a b c d e) 3 / 16 ∧
    c.val = quintet (quantum a b c d e) 3 % 16 * 16 + quintet (quantum a b c d e) 4 / 2 ∧
    d.val = quintet (quantum a b c d e) 4 % 2 * 128 + quintet (quantum a b c d e) 5 * 4
      + quintet (quantum a b c d e) 6 / 8 ∧
    e.val = quintet (quantum a b c d e) 6 % 8 * 32 + quintet (quantum a b c d e) 7 := by
  have ha := a.isLt
  have hb := b.isLt
  have hc := c.isLt
  have hd := d.isLt
  have he := e.isLt
  simp only [quintet, quantum]
  norm_num
  refine ⟨?_, ?_, ?_, ?_, ?_⟩ <;> omega

theorem quantum_inj (a b c d e a' b' c' d' e' : Byte) (k : Nat)
    (h : quantumChars (quantum a b c d e) k = quantumChars (quantum a' b' c' d' e') k) :
    (2 ≤ k → a = a') ∧ (4 ≤ k → b = b') ∧ (5 ≤ k → c = c') ∧ (7 ≤ k → d = d') ∧
      (8 ≤ k → e = e') := by
  have q := quantumChars_inj h
  obtain ⟨h0, h1, h2, h3, h4⟩ := quantum_bytes a b c d e
  obtain ⟨g0, g1, g2, g3, g4⟩ := quantum_bytes a' b' c' d' e'
  refine ⟨?_, ?_, ?_, ?_, ?_⟩ <;> intro hk <;> apply Fin.ext
  · rw [h0, g0, q 0 (by omega), q 1 (by omega)]
  · rw [h1, g1, q 1 (by omega), q 2 (by omega), q 3 (by omega)]
  · rw [h2, g2, q 3 (by omega), q 4 (by omega)]
  · rw [h3, g3, q 4 (by omega), q 5 (by omega), q 6 (by omega)]
  · rw [h4, g4, q 6 (by omega), q 7 (by omega)]

theorem quantumChars_length (n k : Nat) : (quantumChars n k).length = k := by
  simp [quantumChars]

theorem symbols_inj (l : List Byte) :
    ∀ l' : List Byte, l.length = l'.length → symbols l = symbols l' → l = l' := by
  induction l using symbols.induct with
  | case1 =>
    intro l' hl _
    exact (List.length_eq_zero.mp hl.symm).symm
  | case2 a =>
    intro l' hl h
    match l', hl with
    | [a'], _ =>
      obtain ⟨h0, -⟩ := quantum_inj a 0 0 0 0 a' 0 0 0 0 2 h
      rw [h0 le_rfl]
  | case3 a b =>
    intro l' hl h
    match l', hl with
    | [a', b'], _ =>
      obtain ⟨h0, h1, -⟩ := quantum_inj a b 0 0 0 a' b' 0 0 0 4 h
      rw [h0 (by norm_num), h1 le_rfl]
  | case4 a b c =>
    intro l' hl h
    match l', hl with
    | [a', b', c'], _ =>
      obtain ⟨h0, h1, h2, -⟩ := quantum_inj a b c 0 0 a' b' c' 0 0 5 h
      rw [h0 (by norm_num), h1 (by norm_num), h2 le_rfl]
  | case5 a b c d =>
    intro l' hl h
    match l', hl with
    | [a', b', c', d'], _ =>
      obtain ⟨h0, h1, h2, h3, -⟩ := quantum_inj a b c d 0 a' b' c' d' 0 7 h
      rw [h0 (by norm_num), h1 (by norm_num), h2 (by norm_num), h3 le_rfl]
  | case6 a b c d e rest ih =>
    intro l' hl h
    match l', hl with
    | a' :: b' :: c' :: d' :: e' :: rest', hl =>
      simp only [symbols] at h
      have hlen : (quantumChars (quantum a b c d e) 8).length
          = (quantumChars (quantum a' b' c' d' e') 8).length := by
        rw [quantumChars_length, quantumChars_length]
      obtain ⟨hq, hr⟩ := List.append_inj h hlen
      obtain ⟨h0, h1, h2, h3, h4⟩ := quantum_inj a b c d e a' b' c' d' e' 8 hq
      have hrest : rest = rest' := ih rest' (by simpa using hl) hr
      rw [h0 (by norm_num), h1 (by norm_num), h2 (by norm_num), h3 (by norm_num), h4 le_rfl,
        hrest]

theorem trimmed_length (rk : List Byte) (hrk : rk.length = 32) :
    (TrimRight (EncodeToString rk) "=").length = 52 := by
  rw [trimRight_encode, String.length_mk, symbols_length, hrk]

theorem trimmed_symbols (rk : List Byte) :
    ∀ c ∈ (TrimRight (EncodeToString rk) "=").toList,
      ('A' ≤ c ∧ c ≤ 'Z') ∨ ('2' ≤ c ∧ c ≤ '7') := by
  intro c hc
  rw [trimRight_encode] at hc
  have h := symbols_isStdSymbol rk c hc
  simpa [isStdSymbol] using h

theorem trimmed_inj (k1 k2 : List Byte) (h1 : k1.length = 32) (h2 : k2.length = 32)
    (h : TrimRight (EncodeToString k1) "=" = TrimRight (EncodeToString k2) "=") : k1 = k2 := by
  rw [trimRight_encode, trimRight_encode] at h
  exact symbols_inj k1 k2 (h1.trans h2.symm) (congrArg String.data h)

/-! ## The branches of `erase`, `save` and `Save` -/

theorem assign_eq (session : Session) (id : String) :
    (if session.ID = "" then { session with ID := id } else session) = session.withID id := by
  unfold Session.withID
  split <;> rfl

theorem erase_nil {σ : Type} (s : SessionStore σ) (wd : World σ) (session : Session)
    (kv1 : σ) (derr : Option GoError)
    (hd : s.KV.Delete wd.kv (eraseRequest session) = (kv1, none, derr)) :
    erase s wd session = .panic nilDeref := by
  unfold eraseRequest at hd
  simp only [erase, hd]

theorem erase_success {σ : Type} (s : SessionStore σ) (wd : World σ) (session : Session)
    (kv1 : σ) (derr : Option GoError)
    (hd : s.KV.Delete wd.kv (eraseRequest session) = (kv1, some { Success := true }, derr)) :
    erase s wd session
      = .ret (wd.afterCall kv1 (.delete (eraseRequest session)), derr) := by
  unfold eraseRequest at hd
  simp only [erase, hd]
  rfl

theorem erase_failure {σ : Type} (s : SessionStore σ) (wd : World σ) (session : Session)
    (kv1 : σ) (derr : Option GoError)
    (hd : s.KV.Delete wd.kv (eraseRequest session) = (kv1, some { Success := false }, derr)) :
    erase s wd session
      = .ret (wd.afterCall kv1 (.delete (eraseRequest session)),
          some (.errorsNew "Error deleting")) := by
  unfold eraseRequest at hd
  simp only [erase, hd]
  rfl

theorem save_of {σ : Type} (s : SessionStore σ) (wd : World σ) (session : Session)
    (encoded : String) (mo : Options) (kv1 : σ) (r : Option SuccessResponse)
    (serr : Option GoError)
    (henc : EncodeMulti session.name (.vals session.Values) s.Codecs = .ok encoded)
    (hmo : wd.mem.deref s.Options = some mo)
    (hs : s.KV.Set wd.kv (saveRequest session encoded mo.MaxAge) = (kv1, r, serr)) :
    save s wd session
      = .ret (wd.afterCall kv1 (.set (saveRequest session encoded mo.MaxAge)), serr) := by
  unfold saveRequest at hs
  simp only [save, henc, hmo, List.nil_append, hs]
  rfl

theorem save_nil_options {σ : Type} (s : SessionStore σ) (wd : World σ) (session : Session)
    (encoded : String)
    (henc : EncodeMulti session.name (.vals session.Values) s.Codecs = .ok encoded)
    (hmo : wd.mem.deref s.Options = none) :
    save s wd session = .panic nilDeref := by
  simp only [save, henc, hmo]

theorem save_encode_error {σ : Type} (s : SessionStore σ) (wd : World σ) (session : Session)
    (e : GoError)
    (henc : EncodeMulti session.name (.vals session.Values) s.Codecs = .error e) :
    save s wd session = .ret (wd, some e) := by
  simp only [save, henc]

theorem Save_delete_branch {σ : Type} (s : SessionStore σ) (wd : World σ) (rk : List Byte)
    (session : Session) (so : Options)
    (hso : wd.mem.deref session.Options = some so) (hage : so.MaxAge ≤ 0) :
    Save s wd rk session =
      match erase s wd session with
      | .panic msg => .panic msg
      | .ret (wd1, some err) => .ret (wd1, session, some err)
      | .ret (wd1, none) => .ret (wd1.setCookie (NewCookie session.name "" so), session, none) := by
  simp only [Save, hso, hage, if_true]
  rfl

theorem Save_persist_branch {σ : Type} (s : SessionStore σ) (wd : World σ) (rk : List Byte)
    (session : Session) (so : Options)
    (hso : wd.mem.deref session.Options = some so) (hage : 0 < so.MaxAge) :
    Save s wd rk session =
      match save s wd (session.withID (TrimRight (EncodeToString rk) "=")) with
      | .panic msg => .panic msg
      | .ret (wd1, some err) =>
        .ret (wd1, session.withID (TrimRight (EncodeToString rk) "="), some err)
      | .ret (wd1, none) =>
        match EncodeMulti session.name
            (.str (session.withID (TrimRight (EncodeToString rk) "=")).ID) s.Codecs with
        | .error err => .ret (wd1, session.withID (TrimRight (EncodeToString rk) "="), some err)
        | .ok encoded =>
          .ret (wd1.setCookie (NewCookie session.name encoded so),
            session.withID (TrimRight (EncodeToString rk) "="), none) := by
  have hage' : ¬ so.MaxAge ≤ 0 := not_le.mpr hage
  simp only [Save, hso, hage', if_false, assign_eq]
  rfl

/-- What a `Save` that persists and returns a nil error has done. -/
theorem Save_success_inv {σ : Type} (s : SessionStore σ) (wd wd1 : World σ) (rk : List Byte)
    (session session1 : Session) (so : Options)
    (hso : wd.mem.deref session.Options = some so) (hage : 0 < so.MaxAge)
    (hSave : Save s wd rk session = .ret (wd1, session1, none)) :
    session1 = session.withID (TrimRight (EncodeToString rk) "=") ∧
    ∃ encoded mo r tok,
      EncodeMulti session.name (.vals session.Values) s.Codecs = .ok encoded ∧
      wd.mem.deref s.Options = some mo ∧
      s.KV.Set wd.kv (saveRequest session1 encoded mo.MaxAge) = (wd1.kv, r, none) ∧
      EncodeMulti session.name (.str session1.ID) s.Codecs = .ok tok ∧
      wd1 = (wd.afterCall wd1.kv (.set (saveRequest session1 encoded mo.MaxAge))).setCookie
        (NewCookie session.name tok so) := by
  rw [Save_persist_branch s wd rk session so hso hage] at hSave
  cases henc : EncodeMulti session.name (.vals session.Values) s.Codecs with
  | error e =>
    rw [save_encode_error s wd (session.withID (TrimRight (EncodeToString rk) "=")) e henc]
      at hSave
    cases hSave
  | ok encoded =>
    cases hmo : wd.mem.deref s.Options with
    | none =>
      rw [save_nil_options s wd (session.withID (TrimRight (EncodeToString rk) "=")) encoded
        henc hmo] at hSave
      cases hSave
    | some mo =>
      rcases hs : s.KV.Set wd.kv
        (saveRequest (session.withID (TrimRight (EncodeToString rk) "=")) encoded mo.MaxAge)
        with ⟨kv1, r, serr⟩
      rw [save_of s wd (session.withID (TrimRight (EncodeToString rk) "=")) encoded mo kv1 r serr
        henc hmo hs] at hSave
      cases serr with
      | some e => cases hSave
      | none =>
        cases hid : EncodeMulti session.name
            (.str (session.withID (TrimRight (EncodeToString rk) "=")).ID) s.Codecs with
        | error e =>
          simp only [hid] at hSave
          cases hSave
        | ok tok =>
          simp only [hid] at hSave
          cases hSave
          exact ⟨rfl, encoded, mo, r, tok, rfl, rfl, hs, hid, rfl⟩

/-! ## The branches of `load` and `New` -/

theorem load_frame {σ : Type} (s : SessionStore σ) (kv : σ) (session session1 : Session)
    (err : Option GoError) (h : load s kv session = .ret (session1, err)) :
    session1.Options = session.Options ∧ session1.ID = session.ID ∧
      session1.name = session.name ∧ session1.IsNew = session.IsNew := by
  rcases hg : s.KV.GetWithStringKeys kv [sessionKeyPrefix ++ session.ID] with ⟨resp, gerr⟩
  cases gerr with
  | some e =>
    simp only [load, hg] at h
    cases h
    exact ⟨rfl, rfl, rfl, rfl⟩
  | none =>
    cases resp with
    | none =>
      simp only [load, hg] at h
      cases h
    | some resp =>
      simp only [load, hg] at h
      split at h
      · cases h
        exact ⟨rfl, rfl, rfl, rfl⟩
      · split at h
        · cases h
        · split at h <;> cases h <;> exact ⟨rfl, rfl, rfl, rfl⟩

theorem load_found {σ : Type} (s : SessionStore σ) (kv : σ) (session : Session)
    (d : KeyValue) (ds : List KeyValue) (v : Values)
    (hg : s.KV.GetWithStringKeys kv [sessionKeyPrefix ++ session.ID]
      = (some { Data := d :: ds, KeysNotFound := [] }, none))
    (hdec : DecodeMulti Codec.DecodeValues session.name d.Value s.Codecs = .ok v) :
    load s kv session = .ret ({ session with Values := v }, none) := by
  simp [load, hg, hdec]

theorem New_frame {σ : Type} (s : SessionStore σ) (mem mem1 : Mem) (kv : σ) (r : Request)
    (name : String) (o : Options) (session : Session) (err : Option GoError)
    (ho : mem.deref s.Options = some o)
    (hNew : New s mem kv r name = .ret (mem1, session, err)) :
    mem1 = { options := mem.options ++ [o] } ∧ session.Options = some mem.options.length ∧
      err = none := by
  simp only [New, ho, Mem.alloc] at hNew
  split at hNew
  · cases hNew
    exact ⟨rfl, rfl, rfl⟩
  · split at hNew
    · cases hNew
      exact ⟨rfl, rfl, rfl⟩
    · split at hNew
      · cases hNew
      · rename_i session2 e hl
        have hf := load_frame s kv _ _ _ hl
        cases hNew
        exact ⟨rfl, hf.1, rfl⟩
      · rename_i session2 hl
        have hf := load_frame s kv _ _ _ hl
        cases hNew
        exact ⟨rfl, hf.1, rfl⟩

/-! ## The test doubles: lemmas -/

theorem plainCodec_decode_ID (n : Nat) (name x tok : String)
    (h : EncodeMulti name (.str x) [plainCodec n] = .ok tok) :
    DecodeMulti Codec.DecodeString name tok [plainCodec n] = .ok x := by
  by_cases hx : x.length > n
  · simp [EncodeMulti, encodeLoop, plainCodec, hx] at h
  · simp only [EncodeMulti, encodeLoop, plainCodec, hx, List.length_singleton, one_ne_zero,
      if_false, Except.ok.injEq] at h
    subst h
    simp [DecodeMulti, decodeLoop, plainCodec, String.toList]

theorem plainCodec_decode_values (n : Nat) (name : String) (v : Values) (tok : String)
    (h : EncodeMulti name (.vals v) [plainCodec n] = .ok tok) :
    DecodeMulti Codec.DecodeValues name tok [plainCodec n] = .ok v := by
  by_cases h0 : v = []
  · simp only [EncodeMulti, encodeLoop, plainCodec, h0, List.length_singleton, one_ne_zero,
      if_false, if_true, Except.ok.injEq] at h
    subst h h0
    simp [DecodeMulti, decodeLoop, plainCodec]
  · by_cases h1 : v = [("k", "v")]
    · subst h1
      simp only [EncodeMulti, encodeLoop, plainCodec, List.length_singleton, one_ne_zero,
        if_false, if_true, Except.ok.injEq, reduceCtorEq] at h
      subst h
      simp [DecodeMulti, decodeLoop, plainCodec]
    · simp [EncodeMulti, encodeLoop, plainCodec, h0, h1] at h

theorem memKV_get_after_set (st st1 : List KeyValue) (e : KeyValue)
    (r : Option SuccessResponse) (h : memKV.Set st { Data := [e] } = (st1, r, none)) :
    ∃ d ds, memKV.GetWithStringKeys st1 [e.Key]
        = (some { Data := d :: ds, KeysNotFound := [] }, none) ∧ d.Value = e.Value := by
  simp only [memKV, List.foldl_cons, List.foldl_nil, Prod.mk.injEq] at h
  obtain ⟨h1, -⟩ := h
  subst h1
  exact ⟨e, [], by simp [memKV], rfl⟩

/-! ## `New` and `Get`: lookup of a session -/

/-- C1, the code at the failing input: the cookie hello=sABC decodes to the
identifier ABC, the store is empty and answers the Get of "session::ABC" with
that key in KeysNotFound and a nil error, and New returns the session with
IsNew = false and empty values. -/
theorem New_absent_key_is_not_new :
    DecodeMulti Codec.DecodeString "hello" "sABC" testSessionStore.2.Codecs = .ok "ABC" ∧
    memKV.GetWithStringKeys [] [sessionKeyPrefix ++ "ABC"]
        = (some { Data := [], KeysNotFound := ["session::ABC"] }, none) ∧
    New testSessionStore.2 testSessionStore.1 [] (requestWithCookie "hello" "sABC") "hello"
      = .ret ({ options := [defaultOptions, defaultOptions] },
          { ID := "ABC", Values := [], Options := some 1, IsNew := false, name := "hello" },
          none) :=
  ⟨rfl, rfl, rfl⟩

/-- C9, the code at the failing input: the cookie hello=sABC is present, the
store holds an entry under "session::ABC", its value does not decode, and Get
returns a session that is new together with a nil error. -/
theorem Get_undecodable_entry_nil_error :
    memKV.GetWithStringKeys [{ Key := "session::ABC", Value := "garbage", ExpiresAt := 0 }]
        [sessionKeyPrefix ++ "ABC"]
      = (some { Data := [{ Key := "session::ABC", Value := "garbage", ExpiresAt := 0 }],
                KeysNotFound := [] }, none) ∧
    DecodeMulti Codec.DecodeValues "hello" "garbage" testSessionStore.2.Codecs
      = .error (.multi [.codec "securecookie: the value is not valid"]) ∧
    Get testSessionStore.2 [] testSessionStore.1
        [{ Key := "session::ABC", Value := "garbage", ExpiresAt := 0 }]
        (requestWithCookie "hello" "sABC") "hello"
      = .ret ([("hello", { s := { ID := "ABC", Values := [], Options := some 1, IsNew := true,
                                  name := "hello" },
                           e := none })],
          { options := [defaultOptions, defaultOptions] },
          some { ID := "ABC", Values := [], Options := some 1, IsNew := true, name := "hello" },
          none) :=
  ⟨rfl, rfl, rfl⟩

/-- C8: when the default options of the store are allocated at address a and
hold o, every session New returns has its options at another address, holding
o; and whatever is later written to the default options at a, the options of
the session still hold o (while the default options hold what was written).
Without a cookie New does return. -/
theorem New_options_isolated {σ : Type} (s : SessionStore σ) (mem : Mem) (kv : σ)
    (r : Request) (name : String) (a : Nat) (o : Options)
    (ha : s.Options = some a) (ho : mem.options[a]? = some o) :
    (∀ mem1 session err, New s mem kv r name = .ret (mem1, session, err) →
      mem1.deref session.Options = some o ∧ session.Options ≠ s.Options ∧
      ∀ o1 : Options, (mem1.store a o1).deref session.Options = some o ∧
        (mem1.store a o1).deref s.Options = some o1) ∧
    (r.Cookie name = none → ∃ mem1 session, New s mem kv r name = .ret (mem1, session, none)) := by
  have hderef : mem.deref s.Options = some o := by simp [Mem.deref, ha, ho]
  have hlt : a < mem.options.length := by
    by_contra hge
    rw [List.getElem?_eq_none (not_lt.mp hge)] at ho
    cases ho
  refine ⟨?_, ?_⟩
  · intro mem1 session err hNew
    obtain ⟨hm, hp, -⟩ := New_frame s mem mem1 kv r name o session err hderef hNew
    subst hm
    rw [hp, ha]
    refine ⟨?_, ?_, ?_⟩
    · simp [Mem.deref]
    · intro h
      have := Option.some.inj h
      omega
    · intro o1
      constructor
      · simp only [Mem.deref, Mem.store, Option.bind]
        rw [List.getElem?_set_ne (by omega)]
        simp
      · simp only [Mem.deref, Mem.store, Option.bind]
        rw [List.getElem?_set_self]
        simp [hlt]
        omega
  · intro hc
    simp only [New, hderef, Mem.alloc, hc]
    exact ⟨_, _, rfl⟩

/-- The run of TestSessionStore: after New, the Path of the default options is
set to "/foo"; the options of the session still are the defaults with Path "/". -/
theorem New_options_isolated_witness :
    ∃ mem1 session,
      New testSessionStore.2 testSessionStore.1 [] requestWithoutCookie "hello"
        = .ret (mem1, session, none) ∧
      (mem1.store 0 { defaultOptions with Path := "/foo" }).deref session.Options
        = some defaultOptions ∧
      (mem1.store 0 { defaultOptions with Path := "/foo" }).deref testSessionStore.2.Options
        = some { defaultOptions with Path := "/foo" } := by
  have h := New_options_isolated testSessionStore.2 testSessionStore.1 [] requestWithoutCookie
    "hello" 0 defaultOptions rfl rfl
  obtain ⟨mem1, session, hNew⟩ := h.2 rfl
  exact ⟨mem1, session, hNew, (h.1 mem1 session none hNew).2.2 _⟩

/-! ## `Save`: persisting a session -/

/-- C2, the code at the failing input: the own options of the session have
MaxAge 60, the default options of the store have MaxAge 2592000, and the
successful Save writes the entry "session::ABC" with ExpiresAt 2592000, while
the cookie it attaches carries MaxAge 60. -/
theorem Save_expiration_is_store_max_age :
    (testWorld 60 []).mem.deref (testSession "ABC" [("k", "v")]).Options
      = some { defaultOptions with MaxAge := 60 } ∧
    (testWorld 60 []).mem.deref testSessionStore.2.Options = some defaultOptions ∧
    Save testSessionStore.2 (testWorld 60 []) testRandomKey (testSession "ABC" [("k", "v")])
      = .ret ({ mem := (testWorld 60 []).mem,
                kv := [{ Key := "session::ABC", Value := "v1", ExpiresAt := 2592000 }],
                calls := [KVCall.set
                  { Data := [{ Key := "session::ABC", Value := "v1", ExpiresAt := 2592000 }] }],
                w := [NewCookie "hello" "sABC" { defaultOptions with MaxAge := 60 }] },
          testSession "ABC" [("k", "v")], none) :=
  ⟨rfl, rfl, rfl⟩

/-- C3: round trip. Assume that decoding with the codecs of the store inverts
encoding with them (for identifiers and for values) and that after a Set of one
entry that returned a nil error the store's Get of its key returns an entry with
the value written. Then a Save of a session with MaxAge > 0 that returns a nil
error has called http.SetCookie once, with a cookie named after the session
(which is attached, as the one new cookie of the response, when that name is a
valid cookie name), and New on any request that presents the value of that
cookie under the session name returns a session with IsNew = false, the
identifier Save left in the session, and values equal to the ones saved. -/
theorem Save_then_New_round_trip {σ : Type} (s : SessionStore σ) (wd wd1 : World σ)
    (rk : List Byte) (session session1 : Session) (so : Options)
    (hso : wd.mem.deref session.Options = some so) (hage : 0 < so.MaxAge)
    (hdecID : ∀ (name x tok : String), EncodeMulti name (.str x) s.Codecs = .ok tok →
      DecodeMulti Codec.DecodeString name tok s.Codecs = .ok x)
    (hdecValues : ∀ (name : String) (v : Values) (tok : String),
      EncodeMulti name (.vals v) s.Codecs = .ok tok →
      DecodeMulti Codec.DecodeValues name tok s.Codecs = .ok v)
    (hstore : ∀ (st st1 : σ) (e : KeyValue) (r : Option SuccessResponse),
      s.KV.Set st { Data := [e] } = (st1, r, none) →
      ∃ d ds, s.KV.GetWithStringKeys st1 [e.Key]
          = (some { Data := d :: ds, KeysNotFound := [] }, none) ∧ d.Value = e.Value)
    (hSave : Save s wd rk session = .ret (wd1, session1, none)) :
    ∃ c, wd1.w = SetCookie wd.w c ∧ c.Name = session.name ∧
      (isCookieNameValid session.name = true → wd1.w = wd.w ++ [c]) ∧
      ∀ r : Request, r.Cookie session.name = some c.Value →
        ∃ mem2 session2,
          New s wd1.mem wd1.kv r session.name = .ret (mem2, session2, none) ∧
          session2.IsNew = false ∧ session2.ID = session1.ID ∧
          session2.Values = session.Values := by
  obtain ⟨-, encoded, mo, r0, tok, henc, hmo, hs, hid, hwd⟩ :=
    Save_success_inv s wd wd1 rk session session1 so hso hage hSave
  have hw : wd1.w = SetCookie wd.w (NewCookie session.name tok so) := by
    rw [hwd]
    rfl
  refine ⟨NewCookie session.name tok so, hw, rfl, ?_, ?_⟩
  · intro hvalid
    rw [hw]
    simp [SetCookie, NewCookie, hvalid]
  · intro r hr
    have hmem : wd1.mem = wd.mem := by
      rw [hwd]
      rfl
    have hID := hdecID session.name session1.ID tok hid
    have hV := hdecValues session.name session.Values encoded henc
    obtain ⟨d, ds, hg, hd⟩ := hstore wd.kv wd1.kv _ r0 hs
    have hr1 : r.Cookie session.name = some tok := hr
    have hl := load_found s wd1.kv
      { ID := session1.ID, Values := [], Options := some wd.mem.options.length, IsNew := true,
        name := session.name } d ds session.Values hg (by rw [hd]; exact hV)
    refine ⟨{ options := wd.mem.options ++ [mo] },
      { ID := session1.ID, Values := session.Values, Options := some wd.mem.options.length,
        IsNew := false, name := session.name }, ?_, rfl, rfl, rfl⟩
    simp only [New, hmem, hmo, Mem.alloc, hr1, hID, NewSession, hl]

/-- The scenario of the specification on the in-memory store: the session "hello"
without identifier and with the values k: v is saved with MaxAge 86400, and New
on the request presenting the cookie returns it with IsNew = false and the same
values. -/
theorem Save_then_New_round_trip_witness :
    ∃ c : Cookie, c.Name = "hello" ∧ c.Value = "sHKIQP3SSYQMLS3JA6OCFXJYM2FE6M7ZTTABLYZO2CGHEP4BLO3EQ" ∧
      ∃ mem2 session2,
        New testSessionStore.2 (testWorld 86400 []).mem
            [{ Key := "session::HKIQP3SSYQMLS3JA6OCFXJYM2FE6M7ZTTABLYZO2CGHEP4BLO3EQ",
               Value := "v1", ExpiresAt := 2592000 }]
            (requestWithCookie "hello" c.Value) "hello" = .ret (mem2, session2, none) ∧
        session2.IsNew = false ∧
        session2.ID = "HKIQP3SSYQMLS3JA6OCFXJYM2FE6M7ZTTABLYZO2CGHEP4BLO3EQ" ∧
        session2.Values = [("k", "v")] := by
  obtain ⟨c, -, hn, hw, h⟩ := Save_then_New_round_trip testSessionStore.2 (testWorld 86400 [])
    { mem := (testWorld 86400 []).mem,
      kv := [{ Key := "session::HKIQP3SSYQMLS3JA6OCFXJYM2FE6M7ZTTABLYZO2CGHEP4BLO3EQ",
               Value := "v1", ExpiresAt := 2592000 }],
      calls := [KVCall.set { Data :=
        [{ Key := "session::HKIQP3SSYQMLS3JA6OCFXJYM2FE6M7ZTTABLYZO2CGHEP4BLO3EQ",
           Value := "v1", ExpiresAt := 2592000 }] }],
      w := [NewCookie "hello" "sHKIQP3SSYQMLS3JA6OCFXJYM2FE6M7ZTTABLYZO2CGHEP4BLO3EQ"
        { defaultOptions with MaxAge := 86400 }] }
    testRandomKey (testSession "" [("k", "v")])
    { ID := "HKIQP3SSYQMLS3JA6OCFXJYM2FE6M7ZTTABLYZO2CGHEP4BLO3EQ", Values := [("k", "v")],
      Options := some 1, IsNew := true, name := "hello" }
    { defaultOptions with MaxAge := 86400 } rfl (by decide)
    (plainCodec_decode_ID 4096) (plainCodec_decode_values 4096) memKV_get_after_set rfl
  have hc : c = NewCookie "hello" "sHKIQP3SSYQMLS3JA6OCFXJYM2FE6M7ZTTABLYZO2CGHEP4BLO3EQ"
      { defaultOptions with MaxAge := 86400 } := by
    have h1 := hw (by decide)
    simp only [testWorld, List.nil_append, List.cons.injEq, and_true] at h1
    exact h1.symm
  subst hc
  exact ⟨_, rfl, rfl, h (requestWithCookie "hello" _) rfl⟩

/-- C10: for a session whose own options have MaxAge > 0, given that
GenerateRandomKey(32) returned the 32 bytes rk and that the default options of
the store are allocated, Save returns, the session it leaves has a non-empty
identifier, and the only request it may have issued is the Set under
"session::" ++ that identifier. If the identifier was empty it is now
TrimRight(EncodeToString(rk), "="); if it was not empty it is unchanged. That
string has exactly 52 characters, each in A-Z or 2-7, and it is injective in the
32 bytes. -/
theorem Save_assigns_identifier {σ : Type} (s : SessionStore σ) (wd : World σ)
    (rk : List Byte) (session : Session) (so mo : Options)
    (hso : wd.mem.deref session.Options = some so) (hage : 0 < so.MaxAge)
    (hmo : wd.mem.deref s.Options = some mo) (hrk : rk.length = 32) :
    (∃ wd1 err,
      Save s wd rk session
        = .ret (wd1, session.withID (TrimRight (EncodeToString rk) "="), err) ∧
      (wd1.calls = wd.calls ∨
        ∃ encoded, wd1.calls = wd.calls ++
          [KVCall.set (saveRequest (session.withID (TrimRight (EncodeToString rk) "=")) encoded
            mo.MaxAge)])) ∧
    (session.withID (TrimRight (EncodeToString rk) "=")).ID ≠ "" ∧
    (session.ID = "" →
      (session.withID (TrimRight (EncodeToString rk) "=")).ID
        = TrimRight (EncodeToString rk) "=") ∧
    (session.ID ≠ "" →
      (session.withID (TrimRight (EncodeToString rk) "=")).ID = session.ID) ∧
    (TrimRight (EncodeToString rk) "=").length = 52 ∧
    (∀ c ∈ (TrimRight (EncodeToString rk) "=").toList,
      ('A' ≤ c ∧ c ≤ 'Z') ∨ ('2' ≤ c ∧ c ≤ '7')) ∧
    (∀ k1 k2 : List Byte, k1.length = 32 → k2.length = 32 →
      TrimRight (EncodeToString k1) "=" = TrimRight (EncodeToString k2) "=" → k1 = k2) := by
  refine ⟨?_, ?_, ?_, ?_, trimmed_length rk hrk, trimmed_symbols rk, trimmed_inj⟩
  · rw [Save_persist_branch s wd rk session so hso hage]
    cases henc : EncodeMulti session.name (.vals session.Values) s.Codecs with
    | error e =>
      rw [save_encode_error s wd (session.withID (TrimRight (EncodeToString rk) "=")) e henc]
      exact ⟨wd, some e, rfl, Or.inl rfl⟩
    | ok encoded =>
      rcases hs : s.KV.Set wd.kv
        (saveRequest (session.withID (TrimRight (EncodeToString rk) "=")) encoded mo.MaxAge)
        with ⟨kv1, r, serr⟩
      rw [save_of s wd (session.withID (TrimRight (EncodeToString rk) "=")) encoded mo kv1 r serr
        henc hmo hs]
      cases serr with
      | some e => exact ⟨_, some e, rfl, Or.inr ⟨encoded, rfl⟩⟩
      | none =>
        cases hid : EncodeMulti session.name
            (.str (session.withID (TrimRight (EncodeToString rk) "=")).ID) s.Codecs with
        | error e => exact ⟨_, some e, rfl, Or.inr ⟨encoded, rfl⟩⟩
        | ok tok => exact ⟨_, none, rfl, Or.inr ⟨encoded, rfl⟩⟩
  · unfold Session.withID
    by_cases h : session.ID = ""
    · simp only [h, if_true]
      intro h0
      have := trimmed_length rk hrk
      rw [h0] at this
      exact absurd this (by decide)
    · simp [h]
  · intro h
    simp [Session.withID, h]
  · intro h
    simp [Session.withID, h]

/-- The run with a session without identifier: Save leaves it with the 52
character encoding of the random key. -/
theorem Save_assigns_identifier_witness :
    (∃ wd1 err,
      Save testSessionStore.2 (testWorld 86400 []) testRandomKey (testSession "" [("k", "v")])
        = .ret (wd1, testSession "HKIQP3SSYQMLS3JA6OCFXJYM2FE6M7ZTTABLYZO2CGHEP4BLO3EQ"
            [("k", "v")], err)) ∧
    ("HKIQP3SSYQMLS3JA6OCFXJYM2FE6M7ZTTABLYZO2CGHEP4BLO3EQ" : String).length = 52 := by
  have h := Save_assigns_identifier testSessionStore.2 (testWorld 86400 []) testRandomKey
    (testSession "" [("k", "v")]) { defaultOptions with MaxAge := 86400 } defaultOptions rfl
    (by decide) rfl rfl
  obtain ⟨⟨wd1, err, hS, -⟩, -, -, -, hlen, -, -⟩ := h
  exact ⟨⟨wd1, err, hS⟩, hlen⟩

/-! ## `Save`: errors -/

/-- C4, counterexample: with a codec whose ceiling is 3 the values of the
session encode and its identifier ABCD does not. Save returns the error of the
identifier encoding, and the store, empty before the call, holds the entry
"session::ABCD" after it. -/
theorem Save_identifier_encode_failure_keeps_write :
    Save smallCodecStore (testWorld 86400 []) testRandomKey (testSession "ABCD" [])
      = .ret ({ mem := (testWorld 86400 []).mem,
                kv := [{ Key := "session::ABCD", Value := "v0", ExpiresAt := 2592000 }],
                calls := [KVCall.set
                  { Data := [{ Key := "session::ABCD", Value := "v0", ExpiresAt := 2592000 }] }],
                w := [] },
          testSession "ABCD" [],
          some (.multi [.codec "securecookie: the value is too long"])) ∧
    ([{ Key := "session::ABCD", Value := "v0", ExpiresAt := 2592000 }] : List KeyValue)
      ≠ (testWorld 86400 []).kv :=
  ⟨rfl, by simp [testWorld]⟩

/-- C4, amended: whenever Save returns an error, no cookie has been attached.
With MaxAge <= 0 the store is as the one Delete request left it. With
MaxAge > 0: if the values could not be encoded, the error is that of the
encoding, no request was issued and the store is unchanged; if they could, the
one Set request was issued and the store is as that Set left it (this covers
the failure of Set and the failure to encode the identifier after the Set). -/
theorem Save_error_effects {σ : Type} (s : SessionStore σ) (wd wd1 : World σ) (rk : List Byte)
    (session session1 : Session) (so : Options) (e : GoError)
    (hso : wd.mem.deref session.Options = some so)
    (hSave : Save s wd rk session = .ret (wd1, session1, some e)) :
    wd1.w = wd.w ∧
    (so.MaxAge ≤ 0 →
      wd1.kv = (s.KV.Delete wd.kv (eraseRequest session)).1 ∧
      wd1.calls = wd.calls ++ [KVCall.delete (eraseRequest session)]) ∧
    (0 < so.MaxAge → ∀ e1, EncodeMulti session.name (.vals session.Values) s.Codecs = .error e1 →
      e = e1 ∧ wd1.kv = wd.kv ∧ wd1.calls = wd.calls) ∧
    (0 < so.MaxAge → ∀ encoded mo,
      EncodeMulti session.name (.vals session.Values) s.Codecs = .ok encoded →
      wd.mem.deref s.Options = some mo →
      wd1.kv = (s.KV.Set wd.kv (saveRequest session1 encoded mo.MaxAge)).1 ∧
      wd1.calls = wd.calls ++ [KVCall.set (saveRequest session1 encoded mo.MaxAge)]) := by
  by_cases hage : so.MaxAge ≤ 0
  · have hn : ¬ 0 < so.MaxAge := not_lt.mpr hage
    rw [Save_delete_branch s wd rk session so hso hage] at hSave
    rcases hd : s.KV.Delete wd.kv (eraseRequest session) with ⟨kv1, success, derr⟩
    have hres : wd1 = wd.afterCall kv1 (.delete (eraseRequest session)) := by
      rcases success with _ | ⟨⟨b⟩⟩
      · rw [erase_nil s wd session kv1 derr hd] at hSave
        cases hSave
      · cases b
        · rw [erase_failure s wd session kv1 derr hd] at hSave
          cases hSave
          rfl
        · rw [erase_success s wd session kv1 derr hd] at hSave
          cases derr <;> cases hSave
          rfl
    subst hres
    exact ⟨rfl, fun _ => ⟨rfl, rfl⟩, fun h => absurd h hn, fun h => absurd h hn⟩
  · have hpos : 0 < so.MaxAge := not_le.mp hage
    rw [Save_persist_branch s wd rk session so hso hpos] at hSave
    cases henc : EncodeMulti session.name (.vals session.Values) s.Codecs with
    | error e0 =>
      rw [save_encode_error s wd (session.withID (TrimRight (EncodeToString rk) "=")) e0 henc]
        at hSave
      cases hSave
      refine ⟨rfl, fun h => absurd h hage, ?_, ?_⟩
      · intro _ e1 h1
        cases h1
        exact ⟨rfl, rfl, rfl⟩
      · intro _ encoded mo h1
        cases h1
    | ok encoded =>
      cases hmo : wd.mem.deref s.Options with
      | none =>
        rw [save_nil_options s wd (session.withID (TrimRight (EncodeToString rk) "=")) encoded
          henc hmo] at hSave
        cases hSave
      | some mo =>
        rcases hs : s.KV.Set wd.kv
          (saveRequest (session.withID (TrimRight (EncodeToString rk) "=")) encoded mo.MaxAge)
          with ⟨kv1, r, serr⟩
        rw [save_of s wd (session.withID (TrimRight (EncodeToString rk) "=")) encoded mo kv1 r
          serr henc hmo hs] at hSave
        have hres : wd1 = wd.afterCall kv1 (.set (saveRequest
              (session.withID (TrimRight (EncodeToString rk) "=")) encoded mo.MaxAge)) ∧
            session1 = session.withID (TrimRight (EncodeToString rk) "=") := by
          cases serr with
          | some e0 =>
            cases hSave
            exact ⟨rfl, rfl⟩
          | none =>
            cases hid : EncodeMulti session.name
                (.str (session.withID (TrimRight (EncodeToString rk) "=")).ID) s.Codecs with
            | error e0 =>
              simp only [hid] at hSave
              cases hSave
              exact ⟨rfl, rfl⟩
            | ok tok =>
              simp only [hid] at hSave
              cases hSave
        obtain ⟨h1, h2⟩ := hres
        subst h1 h2
        refine ⟨rfl, fun h => absurd h hage, ?_, ?_⟩
        · intro _ e1 h1
          cases h1
        · intro _ encoded1 mo1 h1 h2
          cases h1
          cases h2
          rw [hs]
          exact ⟨rfl, rfl⟩

/-- The run with the codec of ceiling 3: Save returns the error of the identifier
encoding and has attached no cookie. -/
theorem Save_error_effects_witness :
    Save smallCodecStore (testWorld 86400 []) testRandomKey (testSession "ABCD" [])
      = .ret ((testWorld 86400 []).afterCall
            [{ Key := "session::ABCD", Value := "v0", ExpiresAt := 2592000 }]
            (.set (saveRequest (testSession "ABCD" []) "v0" 2592000)),
          testSession "ABCD" [],
          some (.multi [.codec "securecookie: the value is too long"])) ∧
    ((testWorld 86400 []).afterCall
        [{ Key := "session::ABCD", Value := "v0", ExpiresAt := 2592000 }]
        (.set (saveRequest (testSession "ABCD" []) "v0" 2592000))).w = (testWorld 86400 []).w :=
  ⟨rfl, (Save_error_effects smallCodecStore (testWorld 86400 [])
    ((testWorld 86400 []).afterCall
      [{ Key := "session::ABCD", Value := "v0", ExpiresAt := 2592000 }]
      (.set (saveRequest (testSession "ABCD" []) "v0" 2592000)))
    testRandomKey (testSession "ABCD" []) (testSession "ABCD" [])
    { defaultOptions with MaxAge := 86400 }
    (.multi [.codec "securecookie: the value is too long"]) rfl rfl).1⟩

/-- C5: for a session whose own options have MaxAge > 0 and whose values the
codecs refuse to encode, Save returns exactly the error of the encoding, and the
world it returns is the world it was given: the store state is unchanged, no Set
or Delete request was issued, and no cookie was attached. (The session has only
been given its identifier.) -/
theorem Save_payload_encode_failure {σ : Type} (s : SessionStore σ) (wd : World σ)
    (rk : List Byte) (session : Session) (so : Options) (e : GoError)
    (hso : wd.mem.deref session.Options = some so) (hage : 0 < so.MaxAge)
    (henc : EncodeMulti session.name (.vals session.Values) s.Codecs = .error e) :
    Save s wd rk session
      = .ret (wd, session.withID (TrimRight (EncodeToString rk) "="), some e) := by
  rw [Save_persist_branch s wd rk session so hso hage,
    save_encode_error s wd (session.withID (TrimRight (EncodeToString rk) "=")) e henc]

/-- The run of TestGH2MaxLength with a payload the codec refuses: Save returns
the error and the world is unchanged. -/
theorem Save_payload_encode_failure_witness :
    Save testSessionStore.2 (testWorld 86400 []) testRandomKey
        (testSession "" [("big", "00000000")])
      = .ret (testWorld 86400 [],
          testSession "HKIQP3SSYQMLS3JA6OCFXJYM2FE6M7ZTTABLYZO2CGHEP4BLO3EQ"
            [("big", "00000000")],
          some (.multi [.codec "securecookie: the value is too long"])) :=
  Save_payload_encode_failure testSessionStore.2 (testWorld 86400 []) testRandomKey
    (testSession "" [("big", "00000000")]) { defaultOptions with MaxAge := 86400 }
    (.multi [.codec "securecookie: the value is too long"]) rfl (by decide) rfl

/-- C6, counterexample: the Delete of the store fails with the error
"store unavailable" and Success false; Save returns the error made by
errors.New("Error deleting"), which is not the error of the store. -/
theorem Save_delete_error_is_replaced :
    downKV.Delete (testWorld (-1) []).kv (eraseRequest (testSession "ABC" []))
      = ([], some { Success := false }, some (.kv "store unavailable")) ∧
    Save downStore (testWorld (-1) []) testRandomKey (testSession "ABC" [])
      = .ret ({ mem := (testWorld (-1) []).mem, kv := [],
                calls := [KVCall.delete { Keys := ["session::ABC"] }], w := [] },
          testSession "ABC" [], some (.errorsNew "Error deleting")) ∧
    GoError.errorsNew "Error deleting" ≠ GoError.kv "store unavailable" :=
  ⟨rfl, rfl, by simp⟩

/-- C6, amended: when the Delete of the store answers Success together with an
error, Save returns exactly that error; when it answers with Success false,
Save returns the error made by errors.New("Error deleting"), whatever error the
store returned with it; when the Set of the store returns an error, Save returns
exactly that error. In the three cases Save returns an error. -/
theorem Save_store_failure_error {σ : Type} (s : SessionStore σ) (wd : World σ)
    (rk : List Byte) (session : Session) (so : Options)
    (hso : wd.mem.deref session.Options = some so) :
    (so.MaxAge ≤ 0 → ∀ kv1 e,
      s.KV.Delete wd.kv (eraseRequest session) = (kv1, some { Success := true }, some e) →
      Save s wd rk session
        = .ret (wd.afterCall kv1 (.delete (eraseRequest session)), session, some e)) ∧
    (so.MaxAge ≤ 0 → ∀ kv1 derr,
      s.KV.Delete wd.kv (eraseRequest session) = (kv1, some { Success := false }, derr) →
      Save s wd rk session
        = .ret (wd.afterCall kv1 (.delete (eraseRequest session)), session,
            some (.errorsNew "Error deleting"))) ∧
    (0 < so.MaxAge → ∀ encoded mo kv1 r e,
      EncodeMulti session.name (.vals session.Values) s.Codecs = .ok encoded →
      wd.mem.deref s.Options = some mo →
      s.KV.Set wd.kv
        (saveRequest (session.withID (TrimRight (EncodeToString rk) "=")) encoded mo.MaxAge)
          = (kv1, r, some e) →
      Save s wd rk session
        = .ret (wd.afterCall kv1 (.set
            (saveRequest (session.withID (TrimRight (EncodeToString rk) "=")) encoded mo.MaxAge)),
            session.withID (TrimRight (EncodeToString rk) "="), some e)) := by
  refine ⟨?_, ?_, ?_⟩
  · intro hage kv1 e hd
    rw [Save_delete_branch s wd rk session so hso hage, erase_success s wd session kv1 _ hd]
  · intro hage kv1 derr hd
    rw [Save_delete_branch s wd rk session so hso hage, erase_failure s wd session kv1 derr hd]
  · intro hage encoded mo kv1 r e henc hmo hs
    rw [Save_persist_branch s wd rk session so hso hage,
      save_of s wd (session.withID (TrimRight (EncodeToString rk) "=")) encoded mo kv1 r (some e)
        henc hmo hs]

/-- The runs over the store that is down: with MaxAge 0 the Delete fails and Save
returns "Error deleting"; with MaxAge 86400 the Set fails and Save returns the
error of the store. -/
theorem Save_store_failure_error_witness :
    Save downStore (testWorld 0 []) testRandomKey (testSession "ABC" [])
        = .ret ((testWorld 0 []).afterCall [] (.delete (eraseRequest (testSession "ABC" []))),
            testSession "ABC" [], some (.errorsNew "Error deleting")) ∧
    Save downStore (testWorld 86400 []) testRandomKey (testSession "ABC" [])
        = .ret ((testWorld 86400 []).afterCall []
            (.set (saveRequest (testSession "ABC" []) "v0" 2592000)),
            testSession "ABC" [], some (.kv "store unavailable")) :=
  ⟨(Save_store_failure_error downStore (testWorld 0 []) testRandomKey (testSession "ABC" [])
      { defaultOptions with MaxAge := 0 } rfl).2.1 (by decide) [] _ rfl,
   (Save_store_failure_error downStore (testWorld 86400 []) testRandomKey
      (testSession "ABC" []) { defaultOptions with MaxAge := 86400 } rfl).2.2 (by decide)
      "v0" defaultOptions [] _ _ rfl rfl rfl⟩

/-! ## `Save`: deleting a session -/

/-- C7, counterexample: New accepts the session name "a b", which is not a
valid cookie name. With MaxAge 0 the Save of that session issues the Delete, the
store answers Success, Save returns a nil error, and no cookie is attached:
http.SetCookie drops the cookie. -/
theorem Save_delete_invalid_name_no_cookie :
    isCookieNameValid "a b" = false ∧
    New testSessionStore.2 testSessionStore.1 [] requestWithoutCookie "a b"
      = .ret ({ options := [defaultOptions, defaultOptions] },
          { ID := "", Values := [], Options := some 1, IsNew := true, name := "a b" }, none) ∧
    memKV.Delete (testWorld 0 []).kv { Keys := ["session::"] }
      = ([], some { Success := true }, none) ∧
    Save testSessionStore.2 (testWorld 0 []) testRandomKey
        { ID := "", Values := [], Options := some 1, IsNew := true, name := "a b" }
      = .ret ({ mem := (testWorld 0 []).mem, kv := [],
                calls := [KVCall.delete { Keys := ["session::"] }], w := [] },
          { ID := "", Values := [], Options := some 1, IsNew := true, name := "a b" }, none) :=
  ⟨rfl, rfl, rfl, rfl⟩

/-- C7, amended: for a session whose own options have MaxAge <= 0, whatever its
identifier (the empty one included): every return of Save has issued exactly one
request to the store, the Delete of the key "session::" ++ identifier, and no
Set, and leaves the session as it was. When the store answers that Delete with
Success and a nil error, without a look at whether the key existed, Save
returns a nil error and calls http.SetCookie once, with the cookie c whose Name
is the name of the session, whose Value is empty and whose Path, Domain and
MaxAge are those of the options of the session. When the name of the session is
a valid cookie name, exactly that one cookie is attached, and a second Save on
the same session, the store again answering Success, does the same again: one
more identical Delete, one more identical cookie, nil error. When the name is
not a valid cookie name, no cookie is attached. -/
theorem Save_delete_idempotent {σ : Type} (s : SessionStore σ) (wd : World σ) (rk : List Byte)
    (session : Session) (so : Options)
    (hso : wd.mem.deref session.Options = some so) (hage : so.MaxAge ≤ 0) :
    (∀ wd1 session1 err, Save s wd rk session = .ret (wd1, session1, err) →
      wd1.calls = wd.calls ++ [KVCall.delete (eraseRequest session)] ∧ session1 = session) ∧
    ∃ c : Cookie, c.Name = session.name ∧ c.Value = "" ∧ c.Path = so.Path ∧
      c.Domain = so.Domain ∧ c.MaxAge = so.MaxAge ∧
      ∀ kv1, s.KV.Delete wd.kv (eraseRequest session) = (kv1, some { Success := true }, none) →
        (isCookieNameValid session.name = true →
          Save s wd rk session
            = .ret ({ mem := wd.mem, kv := kv1,
                      calls := wd.calls ++ [KVCall.delete (eraseRequest session)],
                      w := wd.w ++ [c] }, session, none) ∧
          ∀ kv2, s.KV.Delete kv1 (eraseRequest session)
              = (kv2, some { Success := true }, none) →
            Save s { mem := wd.mem, kv := kv1,
                     calls := wd.calls ++ [KVCall.delete (eraseRequest session)],
                     w := wd.w ++ [c] } rk session
              = .ret ({ mem := wd.mem, kv := kv2,
                        calls := wd.calls ++ [KVCall.delete (eraseRequest session)]
                          ++ [KVCall.delete (eraseRequest session)],
                        w := wd.w ++ [c] ++ [c] }, session, none)) ∧
        (isCookieNameValid session.name = false →
          Save s wd rk session
            = .ret ({ mem := wd.mem, kv := kv1,
                      calls := wd.calls ++ [KVCall.delete (eraseRequest session)],
                      w := wd.w }, session, none)) := by
  have key : ∀ (wd0 : World σ) (kv1 : σ), wd0.mem.deref session.Options = some so →
      s.KV.Delete wd0.kv (eraseRequest session) = (kv1, some { Success := true }, none) →
      Save s wd0 rk session
        = .ret ({ mem := wd0.mem, kv := kv1,
                  calls := wd0.calls ++ [KVCall.delete (eraseRequest session)],
                  w := SetCookie wd0.w (NewCookie session.name "" so) }, session, none) := by
    intro wd0 kv1 h0 hd
    rw [Save_delete_branch s wd0 rk session so h0 hage, erase_success s wd0 session kv1 none hd]
    rfl
  have hname : (NewCookie session.name "" so).Name = session.name := rfl
  refine ⟨?_, NewCookie session.name "" so, rfl, rfl, rfl, rfl, rfl, ?_⟩
  · intro wd1 session1 err h
    rw [Save_delete_branch s wd rk session so hso hage] at h
    rcases hd : s.KV.Delete wd.kv (eraseRequest session) with ⟨kv1, success, derr⟩
    rcases success with _ | ⟨⟨b⟩⟩
    · rw [erase_nil s wd session kv1 derr hd] at h
      cases h
    · cases b
      · rw [erase_failure s wd session kv1 derr hd] at h
        cases h
        exact ⟨rfl, rfl⟩
      · rw [erase_success s wd session kv1 derr hd] at h
        cases derr <;> cases h <;> exact ⟨rfl, rfl⟩
  · intro kv1 hd
    refine ⟨?_, ?_⟩
    · intro hvalid
      have hset : ∀ w : List Cookie, SetCookie w (NewCookie session.name "" so)
          = w ++ [NewCookie session.name "" so] := by
        intro w
        simp [SetCookie, hname, hvalid]
      refine ⟨?_, ?_⟩
      · rw [key wd kv1 hso hd, hset]
      · intro kv2 hd2
        rw [key { mem := wd.mem, kv := kv1,
                  calls := wd.calls ++ [KVCall.delete (eraseRequest session)],
                  w := wd.w ++ [NewCookie session.name "" so] } kv2 hso hd2, hset]
    · intro hinvalid
      rw [key wd kv1 hso hd]
      simp [SetCookie, hname, hinvalid]

/-- The run of TestStoreDelete on a never persisted session (empty identifier,
name "hello") with MaxAge 0, saved twice on the in-memory store: each Save
issues the Delete of "session::" and attaches the cookie hello with the empty
value. -/
theorem Save_delete_idempotent_witness :
    ∃ c : Cookie, c.Name = "hello" ∧ c.Value = "" ∧
      Save testSessionStore.2 (testWorld 0 []) testRandomKey (testSession "" [])
          = .ret ({ mem := (testWorld 0 []).mem, kv := [],
                    calls := [] ++ [KVCall.delete { Keys := ["session::"] }],
                    w := [] ++ [c] },
              testSession "" [], none) ∧
      Save testSessionStore.2
          { mem := (testWorld 0 []).mem, kv := [],
            calls := [] ++ [KVCall.delete { Keys := ["session::"] }],
            w := [] ++ [c] }
          testRandomKey (testSession "" [])
          = .ret ({ mem := (testWorld 0 []).mem, kv := [],
                    calls := [] ++ [KVCall.delete { Keys := ["session::"] }]
                      ++ [KVCall.delete { Keys := ["session::"] }],
                    w := [] ++ [c] ++ [c] },
              testSession "" [], none) := by
  obtain ⟨-, c, hn, hv, -, -, -, h⟩ := Save_delete_idempotent testSessionStore.2
    (testWorld 0 []) testRandomKey (testSession "" []) { defaultOptions with MaxAge := 0 } rfl
    (by decide)
  obtain ⟨h1, h2⟩ := (h [] rfl).1 (by decide)
  exact ⟨c, hn, hv, h1, h2 [] rfl⟩

end Grkvsessions
